import Mathlib

/-!
Shallow embedding of the effects-chain coordination subsystem
(`EffectsManager` and collaborators) and proofs about its operations.

Machine integers (`int`) are modelled as `Int`; `QString` is modelled by
`QStr`, which distinguishes the null string from the empty one (Qt's
`QString()` is null, `QString("")` is empty but not null, and `operator==`
compares contents, so null compares equal to empty).  `QList`/`std::vector`
are `List`; an element access that the C++ code performs without a bounds
guarantee is modelled in `Except`, where `.error ()` marks an out-of-bounds
access (undefined behaviour in the source).
-/

/-- Model of `QString`: either the null string or a real string value. -/
inductive QStr where
  | nullq : QStr
  | strq (s : String) : QStr
deriving DecidableEq, Repr

namespace QStr

/-- `QString::isNull`. -/
def isNull : QStr → Bool
  | nullq => true
  | strq _ => false

/-- The character content of a `QString`; null has empty content. -/
def content : QStr → String
  | nullq => ""
  | strq s => s

/-- `QString::operator==` compares contents (null equals empty). -/
def qeq (a b : QStr) : Bool :=
  a.content == b.content

end QStr

/-- Model of `EffectManifest`: backend type together with display metadata
and the effect id.  `backendType` mirrors the `EffectBackendType` enum value;
`displayName` abstracts the display name, ordered so that integer comparison
models `QString::localeAwareCompare`.  `tag` distinguishes distinct manifest
objects that happen to share metadata (pointer identity). -/
structure EffectManifest where
  backendType : Nat
  displayName : Nat
  idStr : QStr
  tag : Nat
deriving DecidableEq, Repr

/-- `alphabetizeEffectManifests`: sort built-in effects before external
plugins, ties broken by (locale-aware) display-name comparison. -/
def alphabetizeEffectManifests (pManifest1 pManifest2 : EffectManifest) : Bool :=
  let backendNameComparision : Int :=
    (pManifest1.backendType : Int) - (pManifest2.backendType : Int)
  let displayNameComparision : Int :=
    (pManifest1.displayName : Int) - (pManifest2.displayName : Int)
  if backendNameComparision ≠ 0 then backendNameComparision < 0
  else displayNameComparision < 0

/-- A manifest list is sorted when no later element strictly precedes an
earlier one under `alphabetizeEffectManifests` (the postcondition of
`std::sort` with that comparator). -/
def sortedManifests (l : List EffectManifest) : Prop :=
  l.Pairwise (fun a b => alphabetizeEffectManifests b a = false)

instance (l : List EffectManifest) : Decidable (sortedManifests l) :=
  inferInstanceAs
    (Decidable (l.Pairwise (fun a b => alphabetizeEffectManifests b a = false)))

/-- `std::lower_bound` insertion: insert `m` before the first element that
does not strictly precede it. -/
def insertLowerBound (m : EffectManifest) : List EffectManifest → List EffectManifest
  | [] => [m]
  | a :: t => if alphabetizeEffectManifests a m then a :: insertLowerBound m t
              else m :: a :: t

/-- `std::sort` with `alphabetizeEffectManifests`, modelled as insertion
sort (same specification: a sorted permutation of the input). -/
def sortManifests : List EffectManifest → List EffectManifest
  | [] => []
  | a :: t => insertLowerBound a (sortManifests t)

/-- `EffectsManager::setEffectVisibility`.  Returns the updated visible
list and whether `visibleEffectsUpdated` was emitted. -/
def setEffectVisibility (visibleEffectManifests : List EffectManifest)
    (pManifest : EffectManifest) (visible : Bool) :
    List EffectManifest × Bool :=
  if visible && !(visibleEffectManifests.contains pManifest) then
    (insertLowerBound pManifest visibleEffectManifests, true)
  else if !visible then
    (visibleEffectManifests.erase pManifest, true)
  else
    (visibleEffectManifests, false)

/-- `EffectsManager::getEffectVisibility`. -/
def getEffectVisibility (visibleEffectManifests : List EffectManifest)
    (pManifest : EffectManifest) : Bool :=
  visibleEffectManifests.contains pManifest

/-- A default manifest used only to model `QList::first/last/at` on lists
whose non-emptiness is established separately. -/
def defaultManifest : EffectManifest := ⟨0, 0, QStr.nullq, 0⟩

/-- The scan loop shared by `getNextEffectId` and `getPrevEffectId`:
the first index whose manifest id compares equal (`QString::operator==`)
to `effectId`, or the list length when none does. -/
def findEffectIndex (visible : List EffectManifest) (effectId : QStr) : Nat :=
  visible.findIdx (fun m => effectId.qeq m.idStr)

/-- `EffectsManager::getNextEffectId`. -/
def getNextEffectId (visibleEffectManifests : List EffectManifest)
    (effectId : QStr) : QStr :=
  if visibleEffectManifests.isEmpty then QStr.nullq
  else if effectId.isNull then
    (visibleEffectManifests.headD defaultManifest).idStr
  else
    let index := findEffectIndex visibleEffectManifests effectId + 1
    let index := if visibleEffectManifests.length ≤ index then 0 else index
    (visibleEffectManifests.getD index defaultManifest).idStr

/-- `EffectsManager::getPrevEffectId`. -/
def getPrevEffectId (visibleEffectManifests : List EffectManifest)
    (effectId : QStr) : QStr :=
  if visibleEffectManifests.isEmpty then QStr.nullq
  else if effectId.isNull then
    (visibleEffectManifests.getLastD defaultManifest).idStr
  else
    let index : Int := (findEffectIndex visibleEffectManifests effectId : Int) - 1
    let index : Int :=
      if index < 0 then (visibleEffectManifests.length : Int) - 1 else index
    (visibleEffectManifests.getD index.toNat defaultManifest).idStr

/-- An effect processor handle; its payload records which manifest and
backend produced it (ownership and DSP behaviour are irrelevant here). -/
structure EffectProcessor where
  producedBy : Nat
  forEffect : QStr
deriving DecidableEq, Repr

/-- Model of an `EffectsBackend`: its backend type, its manifest list
(`getEffectIds` followed by `getManifest` on each id enumerates exactly
these, in order), and its processor factory. -/
structure EffectsBackend where
  getType : Nat
  manifests : List EffectManifest
  mkProcessor : EffectManifest → Option EffectProcessor

/-- `EffectsBackend::getManifest(id)`: the backend's manifest with the
given effect id, when it has one. -/
def EffectsBackend.getManifestById (b : EffectsBackend) (id : QStr) :
    Option EffectManifest :=
  b.manifests.find? (fun m => m.idStr.qeq id)

/-- Model of an effect preset: flag for the empty (unloaded-slot) preset,
plus the (backend type, effect id) identity.  Parameter values are not
needed by the claims and are abstracted by `paramData`. -/
structure EffectPreset where
  isEmpty : Bool
  backendType : Nat
  id : QStr
  paramData : Nat
deriving DecidableEq, Repr

/-- Model of `EffectChainPreset`: the ordered effect presets plus
chain-level values. `superKnob` is copied around, never computed with, so a
discrete model of the double is faithful. -/
structure EffectChainPreset where
  effectPresets : List EffectPreset
  mixMode : Nat
  superKnob : Int
  name : QStr
deriving DecidableEq, Repr

/-- One loaded effect inside a chain slot: what
`EffectChainSlot::loadEffect` received for that slot index. -/
structure LoadedEffect where
  manifest : EffectManifest
  processor : Option EffectProcessor
  preset : Option EffectPreset
  adoptMetaknob : Bool
deriving DecidableEq, Repr

/-- Control-side state of an `EffectChainSlot` observable through the
claims: the fixed-length slot sequence and the chain-level values. -/
structure ChainSlotState where
  slots : List (Option LoadedEffect)
  mixMode : Nat
  superDefault : Int
  superValue : Int
  presetName : QStr
  loadedPresetIndex : Int
deriving DecidableEq, Repr

attribute [ext] ChainSlotState

/-- Modelled from the spec: `EffectChainSlot::loadEffect(index, manifest,
processor, preset, adopt)` is not in src/ (only its caller is); per the
spec a slot with no manifest has no processor, the tuple is installed at
the given index, and an out-of-range index is a no-op precondition
violation. -/
def chainLoadEffect (c : ChainSlotState) (i : Int)
    (m : Option EffectManifest) (p : Option EffectProcessor)
    (pre : Option EffectPreset) (adopt : Bool) : ChainSlotState :=
  let newContent : Option LoadedEffect :=
    match m with
    | none => none
    | some mm => some ⟨mm, p, pre, adopt⟩
  if 0 ≤ i then { c with slots := c.slots.set i.toNat newContent }
  else c

/-- Modelled from the spec: `EffectChainSlot::slotControlClear` is not in
src/; per the spec it clears all slots in the chain (slot count is fixed
and never changes). -/
def chainClearAllSlots (c : ChainSlotState) : ChainSlotState :=
  { c with slots := c.slots.map (fun _ => none) }

/-- Modelled from the spec: `EffectChainSlot::getEffectSlot(index)` is not
in src/; per the spec it is bounds-checked and returns an empty pointer on
an out-of-range index.  A resolved slot is identified by its index. -/
def chainGetEffectSlot (c : ChainSlotState) (i : Int) : Option Nat :=
  if 0 ≤ i ∧ i < (c.slots.length : Int) then some i.toNat else none

/-- The `EffectsManager` state the claims touch: registered backends
(`QHash` keyed by backend type), the available-manifest catalogue with its
published count, the visible list, per-manifest default presets, the
standard chain slots, the chain-slot-by-group map, and the chain-preset
manager's index lookup. -/
structure EffectsManagerState where
  effectsBackends : List (Nat × EffectsBackend)
  availableEffectManifests : List EffectManifest
  numEffectsAvailable : Nat
  visibleEffectManifests : List EffectManifest
  defaultPresets : List (EffectManifest × EffectPreset)
  standardEffectChainSlots : List ChainSlotState
  effectChainSlotsByGroup : List (String × ChainSlotState)
  presetIndexOf : EffectChainPreset → Int

/-- `QHash::value(key)`: the stored value or a default-constructed (null)
one. -/
def hashValue {α : Type} [BEq α] {β : Type} (h : List (α × β)) (k : α) :
    Option β :=
  (h.find? (fun kv => kv.fst == k)).map (·.snd)

/-- `QHash::insert` (replacing any previous binding for the key). -/
def hashInsert {α : Type} [BEq α] {β : Type} (h : List (α × β)) (k : α)
    (v : β) : List (α × β) :=
  (k, v) :: h.filter (fun kv => !(kv.fst == k))

/-- `EffectsManager::addEffectsBackend`.  A null backend is rejected; the
backend is registered, its manifests appended to the catalogue, the new
count published, and the catalogue sorted. -/
def addEffectsBackend (s : EffectsManagerState)
    (pBackend : Option EffectsBackend) : EffectsManagerState :=
  match pBackend with
  | none => s
  | some b =>
    let appended := s.availableEffectManifests ++ b.manifests
    { s with
      effectsBackends := hashInsert s.effectsBackends b.getType b
      availableEffectManifests := sortManifests appended
      numEffectsAvailable := appended.length }

/-- `EffectsManager::createProcessor`. -/
def createProcessor (s : EffectsManagerState)
    (pManifest : Option EffectManifest) : Option EffectProcessor :=
  match pManifest with
  | none => none
  | some m =>
    match hashValue s.effectsBackends m.backendType with
    | none => none
    | some pBackend => pBackend.mkProcessor m

/-- `EffectsManager::loadEffect`: resolves a missing preset to the cached
default for the manifest, creates the processor, and forwards the tuple to
the chain slot. -/
def loadEffect (s : EffectsManagerState) (pChainSlot : ChainSlotState)
    (iEffectSlotNumber : Int) (pManifest : Option EffectManifest)
    (pPreset : Option EffectPreset) (adoptMetaknobFromPreset : Bool) :
    ChainSlotState :=
  let pPreset :=
    match pPreset with
    | none =>
      match pManifest with
      | none => none
      | some m => hashValue s.defaultPresets m
    | some p => some p
  chainLoadEffect pChainSlot iEffectSlotNumber pManifest
    (createProcessor s pManifest) pPreset adoptMetaknobFromPreset

/-- The loop body of `EffectsManager::loadEffectChainPreset`: apply the
preset entries to consecutive slot indices starting at `effectSlot`. -/
def applyChainEntries (s : EffectsManagerState) (c : ChainSlotState)
    (effectSlot : Nat) : List EffectPreset → ChainSlotState
  | [] => c
  | pEffectPreset :: rest =>
    if pEffectPreset.isEmpty then
      applyChainEntries s
        (chainLoadEffect c effectSlot none none none true) (effectSlot + 1) rest
    else
      match hashValue s.effectsBackends pEffectPreset.backendType with
      | none => applyChainEntries s c (effectSlot + 1) rest
      | some pBackend =>
        let pManifest := pBackend.getManifestById pEffectPreset.id
        applyChainEntries s
          (chainLoadEffect c effectSlot pManifest
            (createProcessor s pManifest) (some pEffectPreset) true)
          (effectSlot + 1) rest

/-- `EffectsManager::loadEffectChainPreset` (pointer-argument overload),
with both pointers non-null: clear all slots, load each entry in order,
then set the chain-level values from the preset. -/
def loadEffectChainPreset (s : EffectsManagerState) (pChainSlot : ChainSlotState)
    (pPreset : EffectChainPreset) : ChainSlotState :=
  let c := applyChainEntries s (chainClearAllSlots pChainSlot) 0
    pPreset.effectPresets
  { c with
    mixMode := pPreset.mixMode
    superDefault := pPreset.superKnob
    superValue := pPreset.superKnob
    presetName := pPreset.name
    loadedPresetIndex := s.presetIndexOf pPreset }

/-- `EffectsManager::getStandardEffectChainSlot`, in `Except` to record
out-of-bounds `QList::at` access.  The guard is transcribed exactly as in
the source: `VERIFY_OR_DEBUG_ASSERT(0 <= unitNumber || unitNumber <
m_standardEffectChainSlots.size())`, whose failure branch returns an empty
pointer; otherwise `m_standardEffectChainSlots.at(unitNumber)` runs, which
is undefined behaviour (`.error ()`) when the index is out of range. -/
def getStandardEffectChainSlot (standardEffectChainSlots : List ChainSlotState)
    (unitNumber : Int) : Except Unit (Option ChainSlotState) :=
  if ¬ (0 ≤ unitNumber ∨ unitNumber < (standardEffectChainSlots.length : Int)) then
    Except.ok none
  else if h : 0 ≤ unitNumber ∧ unitNumber < (standardEffectChainSlots.length : Int) then
    Except.ok (some (standardEffectChainSlots.get
      ⟨unitNumber.toNat, by omega⟩))
  else
    Except.error ()

/-- `kEffectGroupSeparator` from the anonymous namespace. -/
def kEffectGroupSeparator : String := "_"

/-- `kGroupClose` from the anonymous namespace. -/
def kGroupClose : String := "]"

/-- `QString::split(kEffectGroupSeparator)` with the one-character
separator `"_"` and `Qt::KeepEmptyParts` (the default): split the
character sequence on every underscore. -/
def splitOnSeparator (s : String) : List String :=
  (s.toList.splitOn '_').map List.asString

/-- `QRegExp(".*(\\d+).*")` applied with `indexIn` followed by
`cap(1).toInt()`.  Both `.*` and `\d+` are greedy and the leftmost `.*`
backtracks from the end, so the capture is exactly the last digit
character of the subject; with no digit there is no match, `cap(1)` is
empty and `toInt` yields `0`. -/
def capturedSlotNumber (s : String) : Int :=
  match (s.toList.filter Char.isDigit).getLast? with
  | some c => ((c.toNat - 48 : Nat) : Int)
  | none => 0

/-- `EffectsManager::getEffectSlot(group)`, in `Except` to record
out-of-bounds `QStringList::at` access on the split parts.  The source
splits on the separator, recomposes the chain group from the first two
parts (accessing `parts.at(1)` unconditionally), looks the chain up
(returning an empty pointer when absent), then reads `parts.at(2)` for the
slot number.  A resolved slot is identified by (chain group, slot index). -/
def getEffectSlot (s : EffectsManagerState) (group : String) :
    Except Unit (Option (String × Nat)) :=
  let parts := splitOnSeparator group
  if 2 ≤ parts.length then
    let chainGroup := parts.getD 0 "" ++ kEffectGroupSeparator ++
      parts.getD 1 "" ++ kGroupClose
    match hashValue s.effectChainSlotsByGroup chainGroup with
    | none => Except.ok none
    | some pChainSlot =>
      if 3 ≤ parts.length then
        Except.ok ((chainGetEffectSlot pChainSlot
          (capturedSlotNumber (parts.getD 2 "") - 1)).map
            (fun i => (chainGroup, i)))
      else Except.error ()
  else Except.error ()

/-- The chain group that `getEffectSlot` recomposes from the first two
split parts of a group string:
`parts.at(0) + kEffectGroupSeparator + parts.at(1) + kGroupClose`. -/
def recomposedChainGroup (group : String) : String :=
  (splitOnSeparator group).getD 0 "" ++ kEffectGroupSeparator ++
    (splitOnSeparator group).getD 1 "" ++ kGroupClose

/-- The slot content that `loadEffectChainPreset` leaves at a slot index
fed with the given preset entry (`none` = index beyond the entry list):
empty entry or missing entry unloads, a missing backend or unknown id
leaves the cleared slot empty, otherwise the manifest, its processor and
the entry itself are installed. -/
def loadedSlotFor (s : EffectsManagerState) :
    Option EffectPreset → Option LoadedEffect
  | none => none
  | some e =>
    if e.isEmpty then none
    else
      match hashValue s.effectsBackends e.backendType with
      | none => none
      | some pBackend =>
        match pBackend.getManifestById e.id with
        | none => none
        | some m => some ⟨m, createProcessor s (some m), some e, true⟩

/-! Concrete inputs used by witness theorems. -/

/-- A two-slot chain with nothing loaded. -/
def chainEx : ChainSlotState := ⟨[none, none], 0, 0, 0, QStr.nullq, 0⟩

/-- Built-in manifest "a". -/
def mA : EffectManifest := ⟨0, 1, QStr.strq "a", 1⟩

/-- Built-in manifest "b". -/
def mB : EffectManifest := ⟨0, 2, QStr.strq "b", 2⟩

/-- External manifest "c". -/
def mC : EffectManifest := ⟨1, 0, QStr.strq "c", 3⟩

/-- A built-in backend serving `mA` and `mB`. -/
def backendEx : EffectsBackend :=
  ⟨0, [mA, mB], fun m => some ⟨0, m.idStr⟩⟩

/-- A manager state with one registered backend, one standard chain and
one chain registered under an equalizer group name. -/
def sEx : EffectsManagerState :=
  ⟨[(0, backendEx)], [], 0, [], [], [chainEx],
    [("[EqualizerRack1_[Channel1]]", chainEx)], fun _ => 0⟩

/-- An example chain preset: an empty entry, then manifest "a"'s preset,
then a preset whose backend (type 7) is not registered. -/
def chainPresetEx : EffectChainPreset :=
  ⟨[⟨true, 0, QStr.nullq, 0⟩, ⟨false, 0, QStr.strq "a", 5⟩,
    ⟨false, 7, QStr.strq "z", 6⟩], 1, 42, QStr.strq "MyPreset"⟩

/-- Equality of `Except` results is decidable when both components are. -/
instance {ε α : Type} [DecidableEq ε] [DecidableEq α] :
    DecidableEq (Except ε α) :=
  fun x y =>
    match x, y with
    | Except.error u, Except.error v => decidable_of_iff (u = v) (by simp)
    | Except.ok u, Except.ok v => decidable_of_iff (u = v) (by simp)
    | Except.error _, Except.ok _ => isFalse nofun
    | Except.ok _, Except.error _ => isFalse nofun

/-- The empty manager state used as a witness starting point. -/
def sEmpty : EffectsManagerState :=
  ⟨[], [], 0, [], [], [], [], fun _ => 0⟩

/-- An example visible manifest list with distinct, non-null ids. -/
def vEx : List EffectManifest := [mA, mB, mC]

/-- A three-slot chain used to exercise chain-preset application. -/
def chain3Ex : ChainSlotState := ⟨[none, none, none], 5, 7, 9, QStr.strq "old", 3⟩

/-!  ## Order properties of the manifest comparator  -/

theorem alphabetize_true_iff (a b : EffectManifest) :
    alphabetizeEffectManifests a b = true ↔
      a.backendType < b.backendType ∨
        (a.backendType = b.backendType ∧ a.displayName < b.displayName) := by
  simp only [alphabetizeEffectManifests]
  split <;> rename_i h <;> simp <;> omega

theorem alphabetize_false_iff (a b : EffectManifest) :
    alphabetizeEffectManifests a b = false ↔
      b.backendType < a.backendType ∨
        (a.backendType = b.backendType ∧ b.displayName ≤ a.displayName) := by
  rw [← Bool.not_eq_true, alphabetize_true_iff a b]
  omega

theorem alphabetize_asymm {a b : EffectManifest}
    (h : alphabetizeEffectManifests a b = true) :
    alphabetizeEffectManifests b a = false := by
  rw [alphabetize_true_iff] at h
  rw [alphabetize_false_iff]
  omega

theorem alphabetize_le_trans {x y z : EffectManifest}
    (h1 : alphabetizeEffectManifests x y = false)
    (h2 : alphabetizeEffectManifests z x = false) :
    alphabetizeEffectManifests z y = false := by
  rw [alphabetize_false_iff] at h1 h2 ⊢
  omega

theorem insertLowerBound_perm (m : EffectManifest) (l : List EffectManifest) :
    List.Perm (insertLowerBound m l) (m :: l) := by
  induction l with
  | nil => exact List.Perm.refl _
  | cons a t ih =>
    unfold insertLowerBound
    split
    · exact (ih.cons a).trans (List.Perm.swap m a t)
    · exact List.Perm.refl _

theorem mem_insertLowerBound {y m : EffectManifest} {l : List EffectManifest} :
    y ∈ insertLowerBound m l ↔ y = m ∨ y ∈ l := by
  rw [(insertLowerBound_perm m l).mem_iff]
  simp

theorem sortedManifests_insertLowerBound {l : List EffectManifest}
    (m : EffectManifest) (h : sortedManifests l) :
    sortedManifests (insertLowerBound m l) := by
  induction l with
  | nil => simp [insertLowerBound, sortedManifests]
  | cons a t ih =>
    have ha := (List.pairwise_cons.mp h).1
    have ht := (List.pairwise_cons.mp h).2
    unfold insertLowerBound
    split <;> rename_i hcmp
    · rw [sortedManifests, List.pairwise_cons]
      refine ⟨?_, ih ht⟩
      intro y hy
      rcases mem_insertLowerBound.mp hy with rfl | hyt
      · exact alphabetize_asymm hcmp
      · exact ha y hyt
    · rw [sortedManifests, List.pairwise_cons]
      refine ⟨?_, h⟩
      intro y hy
      rcases List.mem_cons.mp hy with rfl | hyt
      · exact Bool.not_eq_true _ ▸ hcmp
      · exact alphabetize_le_trans (Bool.not_eq_true _ ▸ hcmp) (ha y hyt)

theorem sortManifests_perm (l : List EffectManifest) :
    List.Perm (sortManifests l) l := by
  induction l with
  | nil => exact List.Perm.refl _
  | cons a t ih => exact (insertLowerBound_perm a (sortManifests t)).trans (ih.cons a)

theorem sortManifests_sorted (l : List EffectManifest) :
    sortedManifests (sortManifests l) := by
  induction l with
  | nil => simp [sortManifests, sortedManifests]
  | cons a t ih => exact sortedManifests_insertLowerBound a ih

/-!  ## Claims  -/

/-- Claim C3 counterexample: hiding a manifest that is not in the visible list
leaves the list unchanged (membership did not change) yet still emits the
visible-effects-changed notification, so "emits iff membership changed" is
false. -/
theorem setEffectVisibility_emits_without_change :
    (setEffectVisibility [] mA false).2 = true ∧
    (setEffectVisibility [] mA false).1 = [] ∧
    ((mA ∈ ([] : List EffectManifest)) ↔
      mA ∈ (setEffectVisibility [] mA false).1) := by
  decide

/-- Claim C3 amended: `setEffectVisibility` inserts an absent manifest at its
lower-bound position when showing and removes it when hiding, keeps the
visible list sorted, and emits the notification when showing an absent
manifest and always when hiding — i.e. iff membership changed or `visible`
is false (hiding an absent manifest also emits). -/
theorem setEffectVisibility_spec (l : List EffectManifest)
    (m : EffectManifest) (visible : Bool) (hs : sortedManifests l)
    (hnd : l.Nodup) :
    sortedManifests (setEffectVisibility l m visible).1 ∧
    (m ∈ (setEffectVisibility l m visible).1 ↔ visible = true) ∧
    ((setEffectVisibility l m visible).2 = true ↔
      (visible = true ∧ m ∉ l) ∨ visible = false) ∧
    (visible = true → m ∉ l →
      (setEffectVisibility l m visible).1 = insertLowerBound m l) ∧
    (visible = true → m ∈ l → (setEffectVisibility l m visible).1 = l) ∧
    (visible = false → (setEffectVisibility l m visible).1 = l.erase m) := by
  cases visible with
  | false =>
    have hres : setEffectVisibility l m false = (l.erase m, true) := by
      simp [setEffectVisibility]
    rw [hres]
    refine ⟨hs.sublist (l.erase_sublist m), ?_, by simp, by simp, by simp,
      fun _ => rfl⟩
    simp [hnd.mem_erase_iff]
  | true =>
    by_cases hm : m ∈ l
    · have hres : setEffectVisibility l m true = (l, false) := by
        simp [setEffectVisibility, hm]
      rw [hres]
      exact ⟨hs, by simp [hm], by simp [hm], fun _ h => absurd hm h,
        fun _ _ => rfl, fun h => by cases h⟩
    · have hres : setEffectVisibility l m true = (insertLowerBound m l, true) := by
        simp [setEffectVisibility, hm]
      rw [hres]
      exact ⟨sortedManifests_insertLowerBound m hs,
        by simp [mem_insertLowerBound], by simp [hm], fun _ _ => rfl,
        fun _ h => absurd h hm, fun h => by cases h⟩

/-- Claim C3 amended witness: showing the absent manifest "b" over the sorted
one-element list `[mA]` inserts it in order and emits the notification. -/
theorem setEffectVisibility_spec_witness :
    sortedManifests (setEffectVisibility [mA] mB true).1 ∧
    (mB ∈ (setEffectVisibility [mA] mB true).1 ↔ true = true) ∧
    ((setEffectVisibility [mA] mB true).2 = true ↔
      (true = true ∧ mB ∉ [mA]) ∨ true = false) ∧
    (true = true → mB ∉ [mA] →
      (setEffectVisibility [mA] mB true).1 = insertLowerBound mB [mA]) ∧
    (true = true → mB ∈ [mA] → (setEffectVisibility [mA] mB true).1 = [mA]) ∧
    (true = false → (setEffectVisibility [mA] mB true).1 = [mA].erase mB) :=
  setEffectVisibility_spec [mA] mB true (by decide) (by decide)

/-- Claim C5: after `addEffectsBackend` with a (non-null) backend whose manifest
list is non-empty, duplicate-free and new to the catalogue, each of its
manifests appears exactly once in the catalogue, the catalogue is sorted
builtin-before-external with locale-name tie-break, and the published
count equals the catalogue size; a null backend is a no-op. -/
theorem addEffectsBackend_registers_catalogue (s : EffectsManagerState)
    (b : EffectsBackend) (hne : b.manifests ≠ [])
    (hnd : b.manifests.Nodup)
    (hnew : ∀ m ∈ b.manifests, m ∉ s.availableEffectManifests) :
    (∀ m ∈ b.manifests,
      ((addEffectsBackend s (some b)).availableEffectManifests).count m = 1) ∧
    sortedManifests (addEffectsBackend s (some b)).availableEffectManifests ∧
    (addEffectsBackend s (some b)).numEffectsAvailable =
      (addEffectsBackend s (some b)).availableEffectManifests.length ∧
    addEffectsBackend s none = s := by
  refine ⟨?_, sortManifests_sorted _, ?_, rfl⟩
  · intro m hm
    have hperm := sortManifests_perm (s.availableEffectManifests ++ b.manifests)
    show (sortManifests (s.availableEffectManifests ++ b.manifests)).count m = 1
    rw [hperm.count_eq, List.count_append]
    have h0 : s.availableEffectManifests.count m = 0 :=
      List.count_eq_zero.mpr (hnew m hm)
    have h1 : b.manifests.count m = 1 := List.count_eq_one_of_mem hnd hm
    omega
  · show (s.availableEffectManifests ++ b.manifests).length =
      (sortManifests (s.availableEffectManifests ++ b.manifests)).length
    exact (sortManifests_perm _).length_eq.symm

/-- Claim C5 witness: registering the example backend on the empty state yields a
catalogue holding each of its two manifests exactly once, sorted, with the
published count equal to the size. -/
theorem addEffectsBackend_registers_catalogue_witness :
    (∀ m ∈ backendEx.manifests,
      ((addEffectsBackend sEmpty (some backendEx)).availableEffectManifests).count
        m = 1) ∧
    sortedManifests
      (addEffectsBackend sEmpty (some backendEx)).availableEffectManifests ∧
    (addEffectsBackend sEmpty (some backendEx)).numEffectsAvailable =
      (addEffectsBackend sEmpty (some backendEx)).availableEffectManifests.length ∧
    addEffectsBackend sEmpty none = sEmpty :=
  addEffectsBackend_registers_catalogue sEmpty backendEx (by decide) (by decide)
    (by decide)

/-- Claim C1: the spec says an out-of-range `unitNumber` makes
`getStandardEffectChainSlot` a no-op returning an empty chain-slot pointer
with no out-of-bounds access.  The guard in the source is
`0 <= unitNumber || unitNumber < size` — a tautology (`||` where `&&` was
intended) — so the early return is dead and every out-of-range index
reaches `QList::at(unitNumber)`, an out-of-bounds access: at `-1` and at
`size` on a one-chain list the model reports undefined behaviour instead
of the empty pointer. -/
theorem getStandardEffectChainSlot_out_of_range_is_oob :
    getStandardEffectChainSlot [chainEx] (-1) = Except.error () ∧
    getStandardEffectChainSlot [chainEx] 1 = Except.error () ∧
    (∀ unitNumber : Int,
      0 ≤ unitNumber ∨ unitNumber < (([chainEx] : List ChainSlotState).length : Int)) := by
  refine ⟨by decide, by decide, ?_⟩
  intro u
  omega

/-- Claim C2 counterexample: the claim says every malformed group string yields
an empty effect-slot pointer with no out-of-bounds access, but on `"x"`
(no separator at all, certainly not a documented composite-key shape) the
source accesses `parts.at(1)` on a one-element split, an out-of-bounds
access rather than an empty pointer. -/
theorem getEffectSlot_no_separator_is_oob :
    getEffectSlot sEx "x" = Except.error () := by decide

/-- Claim C2 amended: `getEffectSlot` tolerates malformed group strings
only partially.  A string with fewer than two separator-parts causes an
out-of-bounds access on the split parts; a string with at least two parts
whose recomposed chain group is unregistered returns an empty effect-slot
pointer with no out-of-bounds access (the chain lookup fails before the
third part is read); a two-part string whose recomposed chain group is
registered causes an out-of-bounds access on the third part; and a string
with at least three parts and a registered chain group resolves the
chain's bounds-checked slot from the number captured in the third part
(an empty pointer when that index is out of range). -/
theorem getEffectSlot_tolerated_and_oob_cases (s : EffectsManagerState)
    (group : String) :
    ((splitOnSeparator group).length < 2 →
      getEffectSlot s group = Except.error ()) ∧
    (2 ≤ (splitOnSeparator group).length →
      hashValue s.effectChainSlotsByGroup (recomposedChainGroup group) = none →
      getEffectSlot s group = Except.ok none) ∧
    ((splitOnSeparator group).length = 2 →
      ∀ pChainSlot,
        hashValue s.effectChainSlotsByGroup (recomposedChainGroup group) =
          some pChainSlot →
        getEffectSlot s group = Except.error ()) ∧
    (3 ≤ (splitOnSeparator group).length →
      ∀ pChainSlot,
        hashValue s.effectChainSlotsByGroup (recomposedChainGroup group) =
          some pChainSlot →
        getEffectSlot s group = Except.ok
          ((chainGetEffectSlot pChainSlot
            (capturedSlotNumber ((splitOnSeparator group).getD 2 "") - 1)).map
              (fun i => (recomposedChainGroup group, i)))) := by
  refine ⟨?_, ?_, ?_, ?_⟩
  · intro hlt
    simp only [getEffectSlot]
    rw [if_neg (by omega)]
  · intro h2 hnone
    simp only [getEffectSlot, recomposedChainGroup] at hnone ⊢
    rw [if_pos h2, hnone]
  · intro h2 pChainSlot hsome
    simp only [getEffectSlot, recomposedChainGroup] at hsome ⊢
    rw [if_pos (by omega : 2 ≤ (splitOnSeparator group).length), hsome, h2]
    rfl
  · intro h3 pChainSlot hsome
    simp only [getEffectSlot, recomposedChainGroup] at hsome ⊢
    rw [if_pos (by omega : 2 ≤ (splitOnSeparator group).length), hsome]
    simp [h3]

/-- Claim C2 amended witness: on the example state, a no-separator string
errors (out-of-bounds part access); a two-part string with an unregistered
chain group returns an empty pointer safely; a two-part string whose chain
group is registered errors on the third part; and a well-formed equalizer
effect key resolves to slot 0 of the registered chain. -/
theorem getEffectSlot_tolerated_and_oob_cases_witness :
    getEffectSlot sEx "x" = Except.error () ∧
    getEffectSlot sEx "a_b" = Except.ok none ∧
    getEffectSlot sEx "[EqualizerRack1_[Channel1]" = Except.error () ∧
    getEffectSlot sEx "[EqualizerRack1_[Channel1]_Effect1]" =
      Except.ok (some ("[EqualizerRack1_[Channel1]]", 0)) := by
  refine ⟨(getEffectSlot_tolerated_and_oob_cases sEx "x").1 (by decide),
    (getEffectSlot_tolerated_and_oob_cases sEx "a_b").2.1 (by decide)
      (by decide),
    (getEffectSlot_tolerated_and_oob_cases sEx
      "[EqualizerRack1_[Channel1]").2.2.1 (by decide) chainEx (by decide),
    ?_⟩
  rw [(getEffectSlot_tolerated_and_oob_cases sEx
    "[EqualizerRack1_[Channel1]_Effect1]").2.2.2 (by decide) chainEx
    (by decide)]
  decide

/-- Claim C9: `loadEffect` with no explicit preset forwards the cached default
preset for the manifest to the chain slot, and the forwarded processor is
the one `createProcessor` obtains from the backend owning the manifest —
`none` for a null manifest (an explicit unload) and `none` when the
manifest's backend is not registered. -/
theorem loadEffect_forwards_default_and_processor (s : EffectsManagerState)
    (pChainSlot : ChainSlotState) (iEffectSlotNumber : Int)
    (pManifest : Option EffectManifest) (adoptMetaknobFromPreset : Bool) :
    loadEffect s pChainSlot iEffectSlotNumber pManifest none
        adoptMetaknobFromPreset =
      chainLoadEffect pChainSlot iEffectSlotNumber pManifest
        (createProcessor s pManifest)
        (match pManifest with
         | none => none
         | some m => hashValue s.defaultPresets m)
        adoptMetaknobFromPreset ∧
    createProcessor s none = none ∧
    (∀ m : EffectManifest, hashValue s.effectsBackends m.backendType = none →
      createProcessor s (some m) = none) ∧
    (∀ (m : EffectManifest) (b : EffectsBackend),
      hashValue s.effectsBackends m.backendType = some b →
      createProcessor s (some m) = b.mkProcessor m) := by
  refine ⟨rfl, rfl, ?_, ?_⟩
  · intro m h
    simp [createProcessor, h]
  · intro m b h
    simp [createProcessor, h]

/-- Claim C9 witness: in the example state, loading manifest "a" with no preset
forwards its cached default and its backend's processor; a null manifest
and the unregistered-backend manifest "c" both yield no processor. -/
theorem loadEffect_forwards_default_and_processor_witness :
    loadEffect sEx chainEx 0 (some mA) none true =
      chainLoadEffect chainEx 0 (some mA) (createProcessor sEx (some mA))
        (hashValue sEx.defaultPresets mA) true ∧
    createProcessor sEx none = none ∧
    createProcessor sEx (some mC) = none ∧
    createProcessor sEx (some mA) = backendEx.mkProcessor mA := by
  obtain ⟨h1, h2, h3, h4⟩ :=
    loadEffect_forwards_default_and_processor sEx chainEx 0 (some mA) true
  exact ⟨h1, h2, h3 mC (by rfl), h4 mA backendEx (by rfl)⟩


/-!  ## Cyclic traversal of the visible manifest list  -/

theorem getD_mem (v : List EffectManifest) (i : Nat) (d : EffectManifest)
    (hi : i < v.length) : v.getD i d ∈ v := by
  rw [List.getD_eq_getElem v d hi]
  exact List.getElem_mem hi

theorem getD_last (v : List EffectManifest) (d : EffectManifest)
    (h : v ≠ []) : v.getD (v.length - 1) d = v.getLastD d := by
  induction v generalizing d with
  | nil => exact absurd rfl h
  | cons a t ih =>
    cases t with
    | nil => rfl
    | cons b u =>
      rw [List.getLastD_cons d a (b :: u)]
      have h1 : (a :: b :: u).length - 1 = u.length + 1 := by simp
      rw [h1, List.getD_cons_succ]
      have h2 : u.length = (b :: u).length - 1 := by simp
      have h3 : u.length < (b :: u).length := by simp
      rw [List.getD_eq_getElem _ d h3, ← List.getD_eq_getElem _ a h3, h2]
      exact ih a (by simp)

theorem findEffectIndex_of_get (v : List EffectManifest) (i : Nat)
    (hi : i < v.length)
    (hnd : (v.map (fun m => m.idStr.content)).Nodup) :
    findEffectIndex v ((v.getD i defaultManifest).idStr) = i := by
  induction v generalizing i with
  | nil => simp at hi
  | cons a t ih =>
    have hnd1 : a.idStr.content ∉ t.map (fun m => m.idStr.content) :=
      (List.nodup_cons.mp (by simpa using hnd)).1
    have hndt : (t.map (fun m => m.idStr.content)).Nodup :=
      (List.nodup_cons.mp (by simpa using hnd)).2
    rcases i with _ | j
    · show List.findIdx _ (a :: t) = 0
      rw [List.findIdx_cons]
      have hpa : QStr.qeq ((a :: t).getD 0 defaultManifest).idStr a.idStr = true := by
        simp [QStr.qeq, List.getD_cons_zero]
      rw [hpa]
      rfl
    · have hj : j < t.length := by simpa using hi
      have hmem : t.getD j defaultManifest ∈ t := getD_mem t j _ hj
      have hc : (t.getD j defaultManifest).idStr.content ∈
          t.map (fun m => m.idStr.content) := List.mem_map_of_mem _ hmem
      have hpa : QStr.qeq ((a :: t).getD (j + 1) defaultManifest).idStr a.idStr
          = false := by
        rw [List.getD_cons_succ]
        have hne : (t.getD j defaultManifest).idStr.content ≠ a.idStr.content :=
          fun hceq => hnd1 (hceq ▸ hc)
        simpa [QStr.qeq] using hne
      show List.findIdx _ (a :: t) = j + 1
      rw [List.getD_cons_succ] at hpa ⊢
      rw [List.findIdx_cons, hpa]
      simp only [Bool.cond_false]
      have := ih j hj hndt
      simp only [findEffectIndex] at this
      rw [this]

theorem findEffectIndex_eq_length (v : List EffectManifest) (x : QStr)
    (habs : ∀ m ∈ v, x.qeq m.idStr = false) :
    findEffectIndex v x = v.length := by
  induction v with
  | nil => rfl
  | cons a t ih =>
    show List.findIdx _ (a :: t) = t.length + 1
    rw [List.findIdx_cons, habs a (by simp)]
    have := ih (fun m hm => habs m (List.mem_cons_of_mem a hm))
    simp only [findEffectIndex] at this
    simp [this]

theorem getNextEffectId_at (v : List EffectManifest) (i : Nat)
    (hi : i < v.length) (hnn : ∀ m ∈ v, m.idStr.isNull = false)
    (hnd : (v.map (fun m => m.idStr.content)).Nodup) :
    getNextEffectId v ((v.getD i defaultManifest).idStr) =
      (v.getD ((i + 1) % v.length) defaultManifest).idStr := by
  have hne : v.isEmpty = false := by
    cases v with
    | nil => simp at hi
    | cons a t => rfl
  have hx : (v.getD i defaultManifest).idStr.isNull = false :=
    hnn _ (getD_mem v i _ hi)
  simp only [getNextEffectId, hne, hx, Bool.false_eq_true, if_false,
    findEffectIndex_of_get v i hi hnd]
  by_cases h : v.length ≤ i + 1
  · rw [if_pos h]
    have : (i + 1) % v.length = 0 := by
      have : i + 1 = v.length := by omega
      rw [this, Nat.mod_self]
    rw [this]
  · rw [if_neg h, Nat.mod_eq_of_lt (by omega)]

theorem getPrevEffectId_at (v : List EffectManifest) (i : Nat)
    (hi : i < v.length) (hnn : ∀ m ∈ v, m.idStr.isNull = false)
    (hnd : (v.map (fun m => m.idStr.content)).Nodup) :
    getPrevEffectId v ((v.getD i defaultManifest).idStr) =
      (v.getD ((i + v.length - 1) % v.length) defaultManifest).idStr := by
  have hne : v.isEmpty = false := by
    cases v with
    | nil => simp at hi
    | cons a t => rfl
  have hx : (v.getD i defaultManifest).idStr.isNull = false :=
    hnn _ (getD_mem v i _ hi)
  simp only [getPrevEffectId, hne, hx, Bool.false_eq_true, if_false,
    findEffectIndex_of_get v i hi hnd]
  split <;> rename_i hcond
  · have h0 : i = 0 := by omega
    subst h0
    have h1 : ((v.length : Int) - 1).toNat = v.length - 1 := by omega
    have h2 : (0 + v.length - 1) % v.length = v.length - 1 := by
      have h3 : 0 + v.length - 1 = v.length - 1 := by omega
      rw [h3]
      exact Nat.mod_eq_of_lt (by omega)
    rw [h1, h2]
  · have h1 : ((i : Int) - 1).toNat = i - 1 := by omega
    have h2 : (i + v.length - 1) % v.length = i - 1 := by
      have h3 : i + v.length - 1 = (i - 1) + v.length := by omega
      rw [h3, Nat.add_mod_right, Nat.mod_eq_of_lt (by omega)]
    rw [h1, h2]

/-- Claim C6: `getNextEffectId` / `getPrevEffectId` traverse the visible list
cyclically in order: both return the null id on an empty list; a null id
argument selects the first / last visible effect; and for the id at
position `i` (ids distinct and non-null) they return the ids at positions
`i+1` and `i-1`, wrapping at both ends. -/
theorem getNextPrevEffectId_traversal :
    (∀ x, getNextEffectId [] x = QStr.nullq ∧
      getPrevEffectId [] x = QStr.nullq) ∧
    (∀ v : List EffectManifest, v ≠ [] →
      getNextEffectId v QStr.nullq = (v.headD defaultManifest).idStr ∧
      getPrevEffectId v QStr.nullq = (v.getLastD defaultManifest).idStr) ∧
    (∀ (v : List EffectManifest) (i : Nat), i < v.length →
      (∀ m ∈ v, m.idStr.isNull = false) →
      (v.map (fun m => m.idStr.content)).Nodup →
      getNextEffectId v ((v.getD i defaultManifest).idStr) =
        (v.getD ((i + 1) % v.length) defaultManifest).idStr ∧
      getPrevEffectId v ((v.getD i defaultManifest).idStr) =
        (v.getD ((i + v.length - 1) % v.length) defaultManifest).idStr) := by
  refine ⟨fun x => ⟨rfl, rfl⟩, fun v hv => ?_, fun v i hi hnn hnd =>
    ⟨getNextEffectId_at v i hi hnn hnd, getPrevEffectId_at v i hi hnn hnd⟩⟩
  cases v with
  | nil => exact absurd rfl hv
  | cons a t => exact ⟨rfl, rfl⟩

/-- Claim C6 witness: on the three-element example list, the empty list returns
the null id, a null argument selects the first / last element, and the id
at the last position wraps to the first for next while position 0 wraps to
the last for prev. -/
theorem getNextPrevEffectId_traversal_witness :
    getNextEffectId [] (QStr.strq "a") = QStr.nullq ∧
    getPrevEffectId [] (QStr.strq "a") = QStr.nullq ∧
    getNextEffectId vEx QStr.nullq = (vEx.headD defaultManifest).idStr ∧
    getPrevEffectId vEx QStr.nullq = (vEx.getLastD defaultManifest).idStr ∧
    getNextEffectId vEx ((vEx.getD 2 defaultManifest).idStr) =
      (vEx.getD ((2 + 1) % vEx.length) defaultManifest).idStr ∧
    getPrevEffectId vEx ((vEx.getD 0 defaultManifest).idStr) =
      (vEx.getD ((0 + vEx.length - 1) % vEx.length) defaultManifest).idStr := by
  obtain ⟨h1, h2, h3⟩ := getNextPrevEffectId_traversal
  exact ⟨(h1 _).1, (h1 _).2, (h2 vEx (by decide)).1, (h2 vEx (by decide)).2,
    (h3 vEx 2 (by decide) (by decide) (by decide)).1,
    (h3 vEx 0 (by decide) (by decide) (by decide)).2⟩

theorem getNextEffectId_iterate (v : List EffectManifest)
    (hnn : ∀ m ∈ v, m.idStr.isNull = false)
    (hnd : (v.map (fun m => m.idStr.content)).Nodup) (i : Nat)
    (hi : i < v.length) (k : Nat) :
    Nat.iterate (getNextEffectId v) k ((v.getD i defaultManifest).idStr) =
      (v.getD ((i + k) % v.length) defaultManifest).idStr := by
  induction k with
  | zero =>
    simp [Nat.mod_eq_of_lt hi]
  | succ n ihn =>
    rw [Function.iterate_succ_apply', ihn]
    have hlt : (i + n) % v.length < v.length := Nat.mod_lt _ (by omega)
    rw [getNextEffectId_at v _ hlt hnn hnd, Nat.mod_add_mod, Nat.add_assoc]

/-- Claim C7: over a visible list with pairwise-distinct non-null ids,
`getNextEffectId` iterated length-many times from the id at any position
returns to that id, and `getPrevEffectId` is its exact two-sided
inverse. -/
theorem getNextEffectId_cyclic (v : List EffectManifest) (i : Nat)
    (hi : i < v.length) (hnn : ∀ m ∈ v, m.idStr.isNull = false)
    (hnd : (v.map (fun m => m.idStr.content)).Nodup) :
    Nat.iterate (getNextEffectId v) v.length
        ((v.getD i defaultManifest).idStr) =
      (v.getD i defaultManifest).idStr ∧
    getPrevEffectId v (getNextEffectId v ((v.getD i defaultManifest).idStr)) =
      (v.getD i defaultManifest).idStr ∧
    getNextEffectId v (getPrevEffectId v ((v.getD i defaultManifest).idStr)) =
      (v.getD i defaultManifest).idStr := by
  refine ⟨?_, ?_, ?_⟩
  · rw [getNextEffectId_iterate v hnn hnd i hi v.length, Nat.add_mod_right,
      Nat.mod_eq_of_lt hi]
  · rw [getNextEffectId_at v i hi hnn hnd]
    have hlt : (i + 1) % v.length < v.length := Nat.mod_lt _ (by omega)
    rw [getPrevEffectId_at v _ hlt hnn hnd]
    have h1 : (i + 1) % v.length + v.length - 1 =
        (i + 1) % v.length + (v.length - 1) := by omega
    rw [h1, Nat.mod_add_mod]
    have h2 : i + 1 + (v.length - 1) = i + v.length := by omega
    rw [h2, Nat.add_mod_right, Nat.mod_eq_of_lt hi]
  · rw [getPrevEffectId_at v i hi hnn hnd]
    have hlt : (i + v.length - 1) % v.length < v.length := Nat.mod_lt _ (by omega)
    rw [getNextEffectId_at v _ hlt hnn hnd, Nat.mod_add_mod]
    have h2 : i + v.length - 1 + 1 = i + v.length := by omega
    rw [h2, Nat.add_mod_right, Nat.mod_eq_of_lt hi]

/-- Claim C7 witness: on the three-element example list, three steps of next from
the middle id return to it, and prev undoes next (and conversely) there. -/
theorem getNextEffectId_cyclic_witness :
    Nat.iterate (getNextEffectId vEx) vEx.length
        ((vEx.getD 1 defaultManifest).idStr) =
      (vEx.getD 1 defaultManifest).idStr ∧
    getPrevEffectId vEx (getNextEffectId vEx ((vEx.getD 1 defaultManifest).idStr)) =
      (vEx.getD 1 defaultManifest).idStr ∧
    getNextEffectId vEx (getPrevEffectId vEx ((vEx.getD 1 defaultManifest).idStr)) =
      (vEx.getD 1 defaultManifest).idStr :=
  getNextEffectId_cyclic vEx 1 (by decide) (by decide) (by decide)

/-- Claim C10: on a non-empty visible list, a non-null id that matches no
element's id makes `getNextEffectId` return the first visible id and
`getPrevEffectId` the last one (an unknown id behaves like the
off-the-end position, not an error). -/
theorem getNextPrevEffectId_unknown_id (v : List EffectManifest) (x : QStr)
    (hv : v ≠ []) (hx : x.isNull = false)
    (habs : ∀ m ∈ v, x.qeq m.idStr = false) :
    getNextEffectId v x = (v.headD defaultManifest).idStr ∧
    getPrevEffectId v x = (v.getLastD defaultManifest).idStr := by
  have hne : v.isEmpty = false := by
    cases v with
    | nil => exact absurd rfl hv
    | cons a t => rfl
  have hlen : 1 ≤ v.length := by
    cases v with
    | nil => exact absurd rfl hv
    | cons a t => simp
  constructor
  · simp only [getNextEffectId, hne, hx, Bool.false_eq_true, if_false,
      findEffectIndex_eq_length v x habs]
    rw [if_pos (by omega)]
    cases v with
    | nil => exact absurd rfl hv
    | cons a t => rfl
  · simp only [getPrevEffectId, hne, hx, Bool.false_eq_true, if_false,
      findEffectIndex_eq_length v x habs]
    rw [if_neg (by omega : ¬ ((v.length : Int) - 1 < 0))]
    have h1 : ((v.length : Int) - 1).toNat = v.length - 1 := by omega
    rw [h1, getD_last v _ hv]

/-- Claim C10 witness: the unknown id "zz" on the example list yields the first
id for next and the last id for prev. -/
theorem getNextPrevEffectId_unknown_id_witness :
    getNextEffectId vEx (QStr.strq "zz") = (vEx.headD defaultManifest).idStr ∧
    getPrevEffectId vEx (QStr.strq "zz") = (vEx.getLastD defaultManifest).idStr :=
  getNextPrevEffectId_unknown_id vEx (QStr.strq "zz") (by decide) (by decide)
    (by decide)

/-!  ## Applying a chain preset  -/

theorem chainLoadEffect_mixMode (c : ChainSlotState) (i : Int)
    (m : Option EffectManifest) (p : Option EffectProcessor)
    (pre : Option EffectPreset) (adopt : Bool) :
    (chainLoadEffect c i m p pre adopt).mixMode = c.mixMode := by
  simp only [chainLoadEffect]
  split <;> rfl

theorem chainLoadEffect_superDefault (c : ChainSlotState) (i : Int)
    (m : Option EffectManifest) (p : Option EffectProcessor)
    (pre : Option EffectPreset) (adopt : Bool) :
    (chainLoadEffect c i m p pre adopt).superDefault = c.superDefault := by
  simp only [chainLoadEffect]
  split <;> rfl

theorem chainLoadEffect_superValue (c : ChainSlotState) (i : Int)
    (m : Option EffectManifest) (p : Option EffectProcessor)
    (pre : Option EffectPreset) (adopt : Bool) :
    (chainLoadEffect c i m p pre adopt).superValue = c.superValue := by
  simp only [chainLoadEffect]
  split <;> rfl

theorem chainLoadEffect_presetName (c : ChainSlotState) (i : Int)
    (m : Option EffectManifest) (p : Option EffectProcessor)
    (pre : Option EffectPreset) (adopt : Bool) :
    (chainLoadEffect c i m p pre adopt).presetName = c.presetName := by
  simp only [chainLoadEffect]
  split <;> rfl

theorem chainLoadEffect_loadedPresetIndex (c : ChainSlotState) (i : Int)
    (m : Option EffectManifest) (p : Option EffectProcessor)
    (pre : Option EffectPreset) (adopt : Bool) :
    (chainLoadEffect c i m p pre adopt).loadedPresetIndex =
      c.loadedPresetIndex := by
  simp only [chainLoadEffect]
  split <;> rfl

theorem chainLoadEffect_length (c : ChainSlotState) (i : Int)
    (m : Option EffectManifest) (p : Option EffectProcessor)
    (pre : Option EffectPreset) (adopt : Bool) :
    (chainLoadEffect c i m p pre adopt).slots.length = c.slots.length := by
  simp only [chainLoadEffect]
  split <;> simp

theorem chainLoadEffect_slots_nat (c : ChainSlotState) (k : Nat)
    (m : Option EffectManifest) (p : Option EffectProcessor)
    (pre : Option EffectPreset) (adopt : Bool) :
    (chainLoadEffect c (k : Int) m p pre adopt).slots =
      c.slots.set k
        (match m with
         | none => none
         | some mm => some ⟨mm, p, pre, adopt⟩) := by
  simp only [chainLoadEffect]
  rw [if_pos (by omega : (0 : Int) ≤ (k : Int))]
  simp

theorem applyChainEntries_mixMode (s : EffectsManagerState)
    (es : List EffectPreset) : ∀ (k : Nat) (c : ChainSlotState),
    (applyChainEntries s c k es).mixMode = c.mixMode := by
  induction es with
  | nil => intro k c; rfl
  | cons e rest ih =>
    intro k c
    unfold applyChainEntries
    split
    · rw [ih]; exact chainLoadEffect_mixMode ..
    · split
      · exact ih ..
      · rw [ih]; exact chainLoadEffect_mixMode ..

theorem applyChainEntries_superDefault (s : EffectsManagerState)
    (es : List EffectPreset) : ∀ (k : Nat) (c : ChainSlotState),
    (applyChainEntries s c k es).superDefault = c.superDefault := by
  induction es with
  | nil => intro k c; rfl
  | cons e rest ih =>
    intro k c
    unfold applyChainEntries
    split
    · rw [ih]; exact chainLoadEffect_superDefault ..
    · split
      · exact ih ..
      · rw [ih]; exact chainLoadEffect_superDefault ..

theorem applyChainEntries_superValue (s : EffectsManagerState)
    (es : List EffectPreset) : ∀ (k : Nat) (c : ChainSlotState),
    (applyChainEntries s c k es).superValue = c.superValue := by
  induction es with
  | nil => intro k c; rfl
  | cons e rest ih =>
    intro k c
    unfold applyChainEntries
    split
    · rw [ih]; exact chainLoadEffect_superValue ..
    · split
      · exact ih ..
      · rw [ih]; exact chainLoadEffect_superValue ..

theorem applyChainEntries_presetName (s : EffectsManagerState)
    (es : List EffectPreset) : ∀ (k : Nat) (c : ChainSlotState),
    (applyChainEntries s c k es).presetName = c.presetName := by
  induction es with
  | nil => intro k c; rfl
  | cons e rest ih =>
    intro k c
    unfold applyChainEntries
    split
    · rw [ih]; exact chainLoadEffect_presetName ..
    · split
      · exact ih ..
      · rw [ih]; exact chainLoadEffect_presetName ..

theorem applyChainEntries_loadedPresetIndex (s : EffectsManagerState)
    (es : List EffectPreset) : ∀ (k : Nat) (c : ChainSlotState),
    (applyChainEntries s c k es).loadedPresetIndex = c.loadedPresetIndex := by
  induction es with
  | nil => intro k c; rfl
  | cons e rest ih =>
    intro k c
    unfold applyChainEntries
    split
    · rw [ih]; exact chainLoadEffect_loadedPresetIndex ..
    · split
      · exact ih ..
      · rw [ih]; exact chainLoadEffect_loadedPresetIndex ..

theorem applyChainEntries_length (s : EffectsManagerState)
    (es : List EffectPreset) : ∀ (k : Nat) (c : ChainSlotState),
    (applyChainEntries s c k es).slots.length = c.slots.length := by
  induction es with
  | nil => intro k c; rfl
  | cons e rest ih =>
    intro k c
    unfold applyChainEntries
    split
    · rw [ih]; exact chainLoadEffect_length ..
    · split
      · exact ih ..
      · rw [ih]; exact chainLoadEffect_length ..

theorem applyChainEntries_getElem (s : EffectsManagerState)
    (es : List EffectPreset) : ∀ (k : Nat) (c : ChainSlotState),
    (∀ j, k ≤ j → j < c.slots.length → c.slots[j]? = some none) →
    ∀ i : Nat,
    (applyChainEntries s c k es).slots[i]? =
      (if k ≤ i ∧ i < c.slots.length then some (loadedSlotFor s es[i - k]?)
       else c.slots[i]?) := by
  induction es with
  | nil =>
    intro k c hinv i
    show c.slots[i]? = _
    split <;> rename_i h
    · rw [hinv i h.1 h.2, List.getElem?_nil]
      rfl
    · rfl
  | cons e rest ih =>
    intro k c hinv i
    unfold applyChainEntries
    split <;> rename_i hemp
    · -- empty entry: unload slot k, continue
      have hinv2 : ∀ j, k + 1 ≤ j →
          j < (chainLoadEffect c (k : Int) none none none true).slots.length →
          (chainLoadEffect c (k : Int) none none none true).slots[j]? =
            some none := by
        intro j hj hjl
        rw [chainLoadEffect_length] at hjl
        rw [chainLoadEffect_slots_nat, List.getElem?_set_ne (by omega)]
        exact hinv j (by omega) hjl
      rw [ih (k + 1) _ hinv2 i]
      rw [chainLoadEffect_length, chainLoadEffect_slots_nat]
      by_cases hik : i < k
      · rw [if_neg (by omega), if_neg (by omega),
          List.getElem?_set_ne (by omega)]
      by_cases hik2 : i = k
      · subst hik2
        by_cases hkl : i < c.slots.length
        · rw [if_neg (by omega), if_pos ⟨Nat.le_refl i, hkl⟩,
            List.getElem?_set_eq hkl, Nat.sub_self, List.getElem?_cons_zero]
          simp [loadedSlotFor, hemp]
        · rw [if_neg (by omega), if_neg (by omega),
            List.getElem?_eq_none (by simpa using hkl),
            List.getElem?_eq_none (by omega)]
      · by_cases hil : i < c.slots.length
        · rw [if_pos ⟨by omega, hil⟩, if_pos ⟨by omega, hil⟩]
          have h5 : i - k = (i - (k + 1)) + 1 := by omega
          rw [h5, List.getElem?_cons_succ]
        · rw [if_neg (by omega), if_neg (by omega),
            List.getElem?_set_ne (by omega)]
    · cases hbk : hashValue s.effectsBackends e.backendType with
      | none =>
        simp only [hbk]
        rw [ih (k + 1) c (fun j hj hjl => hinv j (by omega) hjl) i]
        by_cases hik : i < k
        · rw [if_neg (by omega), if_neg (by omega)]
        by_cases hik2 : i = k
        · subst hik2
          by_cases hkl : i < c.slots.length
          · rw [if_neg (by omega), if_pos ⟨Nat.le_refl i, hkl⟩,
              hinv i (Nat.le_refl i) hkl, Nat.sub_self,
              List.getElem?_cons_zero]
            simp [loadedSlotFor, hemp, hbk]
          · rw [if_neg (by omega), if_neg (by omega)]
        · by_cases hil : i < c.slots.length
          · rw [if_pos ⟨by omega, hil⟩, if_pos ⟨by omega, hil⟩]
            have h5 : i - k = (i - (k + 1)) + 1 := by omega
            rw [h5, List.getElem?_cons_succ]
          · rw [if_neg (by omega), if_neg (by omega)]
      | some b =>
        simp only [hbk]
        have hinv2 : ∀ j, k + 1 ≤ j →
            j < (chainLoadEffect c (k : Int) (b.getManifestById e.id)
              (createProcessor s (b.getManifestById e.id)) (some e)
              true).slots.length →
            (chainLoadEffect c (k : Int) (b.getManifestById e.id)
              (createProcessor s (b.getManifestById e.id)) (some e)
              true).slots[j]? = some none := by
          intro j hj hjl
          rw [chainLoadEffect_length] at hjl
          rw [chainLoadEffect_slots_nat, List.getElem?_set_ne (by omega)]
          exact hinv j (by omega) hjl
        rw [ih (k + 1) _ hinv2 i]
        rw [chainLoadEffect_length, chainLoadEffect_slots_nat]
        by_cases hik : i < k
        · rw [if_neg (by omega), if_neg (by omega),
            List.getElem?_set_ne (by omega)]
        by_cases hik2 : i = k
        · subst hik2
          by_cases hkl : i < c.slots.length
          · rw [if_neg (by omega), if_pos ⟨Nat.le_refl i, hkl⟩,
              List.getElem?_set_eq hkl, Nat.sub_self, List.getElem?_cons_zero]
            simp only [loadedSlotFor, hemp, hbk]
            cases hman : b.getManifestById e.id with
            | none => simp [hman]
            | some mm => simp [hman]
          · rw [if_neg (by omega), if_neg (by omega),
              List.getElem?_eq_none (by simpa using hkl),
              List.getElem?_eq_none (by omega)]
        · by_cases hil : i < c.slots.length
          · rw [if_pos ⟨by omega, hil⟩, if_pos ⟨by omega, hil⟩]
            have h5 : i - k = (i - (k + 1)) + 1 := by omega
            rw [h5, List.getElem?_cons_succ]
          · rw [if_neg (by omega), if_neg (by omega),
              List.getElem?_set_ne (by omega)]

theorem chainClearAllSlots_length (c : ChainSlotState) :
    (chainClearAllSlots c).slots.length = c.slots.length := by
  simp [chainClearAllSlots]

theorem chainClearAllSlots_cleared (c : ChainSlotState) :
    ∀ j, 0 ≤ j → j < (chainClearAllSlots c).slots.length →
      (chainClearAllSlots c).slots[j]? = some none := by
  intro j _ hj
  rw [chainClearAllSlots_length] at hj
  show (c.slots.map (fun _ => none))[j]? = some none
  rw [List.getElem?_map, List.getElem?_eq_getElem hj]
  rfl

theorem loadEffectChainPreset_closed_form (s : EffectsManagerState)
    (pChainSlot : ChainSlotState) (pPreset : EffectChainPreset) :
    loadEffectChainPreset s pChainSlot pPreset =
      { slots := (List.range pChainSlot.slots.length).map
          (fun i => loadedSlotFor s pPreset.effectPresets[i]?),
        mixMode := pPreset.mixMode,
        superDefault := pPreset.superKnob,
        superValue := pPreset.superKnob,
        presetName := pPreset.name,
        loadedPresetIndex := s.presetIndexOf pPreset } := by
  unfold loadEffectChainPreset
  apply ChainSlotState.ext
  · show (applyChainEntries s (chainClearAllSlots pChainSlot) 0
      pPreset.effectPresets).slots = _
    apply List.ext_getElem?_iff.mpr
    intro i
    rw [applyChainEntries_getElem s pPreset.effectPresets 0
      (chainClearAllSlots pChainSlot) (chainClearAllSlots_cleared pChainSlot) i,
      List.getElem?_map]
    by_cases hil : i < pChainSlot.slots.length
    · rw [if_pos ⟨Nat.zero_le i, by rw [chainClearAllSlots_length]; exact hil⟩,
        Nat.sub_zero, List.getElem?_range hil]
      rfl
    · rw [if_neg (by rw [chainClearAllSlots_length]; omega),
        List.getElem?_eq_none (by rw [chainClearAllSlots_length]; omega),
        List.getElem?_eq_none (by simpa using hil)]
      rfl
  · rfl
  · rfl
  · rfl
  · rfl
  · rfl

/-- Claim C4: applying a chain preset to a chain slot clears every slot, loads
the i-th preset entry into slot index i in order (an empty entry unloads
that slot; an entry whose backend is missing leaves only that slot empty
while later entries still load at their own indices; the loop always runs
to completion), and then sets the chain's mix mode, super-parameter
default and current value, preset name, and loaded-preset index from the
preset. -/
theorem loadEffectChainPreset_applies_preset (s : EffectsManagerState)
    (pChainSlot : ChainSlotState) (pPreset : EffectChainPreset) :
    (loadEffectChainPreset s pChainSlot pPreset).mixMode = pPreset.mixMode ∧
    (loadEffectChainPreset s pChainSlot pPreset).superDefault =
      pPreset.superKnob ∧
    (loadEffectChainPreset s pChainSlot pPreset).superValue =
      pPreset.superKnob ∧
    (loadEffectChainPreset s pChainSlot pPreset).presetName = pPreset.name ∧
    (loadEffectChainPreset s pChainSlot pPreset).loadedPresetIndex =
      s.presetIndexOf pPreset ∧
    (loadEffectChainPreset s pChainSlot pPreset).slots.length =
      pChainSlot.slots.length ∧
    (∀ i : Nat, i < pChainSlot.slots.length →
      (loadEffectChainPreset s pChainSlot pPreset).slots[i]? =
        some (loadedSlotFor s pPreset.effectPresets[i]?)) := by
  rw [loadEffectChainPreset_closed_form s pChainSlot pPreset]
  refine ⟨rfl, rfl, rfl, rfl, rfl, by simp, ?_⟩
  intro i hil
  show ((List.range pChainSlot.slots.length).map
    (fun i => loadedSlotFor s pPreset.effectPresets[i]?))[i]? = _
  rw [List.getElem?_map, List.getElem?_range hil]
  rfl

/-- Claim C4 witness: applying the example preset (empty entry, a loadable
entry, an entry with an unregistered backend) to a three-slot chain sets
the chain-level values and fills each slot index from its own entry —
slot 2's missing backend leaves only slot 2 empty. -/
theorem loadEffectChainPreset_applies_preset_witness :
    (loadEffectChainPreset sEx chain3Ex chainPresetEx).mixMode =
      chainPresetEx.mixMode ∧
    (loadEffectChainPreset sEx chain3Ex chainPresetEx).superDefault =
      chainPresetEx.superKnob ∧
    (loadEffectChainPreset sEx chain3Ex chainPresetEx).superValue =
      chainPresetEx.superKnob ∧
    (loadEffectChainPreset sEx chain3Ex chainPresetEx).presetName =
      chainPresetEx.name ∧
    (loadEffectChainPreset sEx chain3Ex chainPresetEx).loadedPresetIndex =
      sEx.presetIndexOf chainPresetEx ∧
    (loadEffectChainPreset sEx chain3Ex chainPresetEx).slots.length =
      chain3Ex.slots.length ∧
    (loadEffectChainPreset sEx chain3Ex chainPresetEx).slots[0]? =
      some (loadedSlotFor sEx chainPresetEx.effectPresets[0]?) ∧
    (loadEffectChainPreset sEx chain3Ex chainPresetEx).slots[1]? =
      some (loadedSlotFor sEx chainPresetEx.effectPresets[1]?) ∧
    (loadEffectChainPreset sEx chain3Ex chainPresetEx).slots[2]? =
      some (loadedSlotFor sEx chainPresetEx.effectPresets[2]?) := by
  obtain ⟨h1, h2, h3, h4, h5, h6, h7⟩ :=
    loadEffectChainPreset_applies_preset sEx chain3Ex chainPresetEx
  exact ⟨h1, h2, h3, h4, h5, h6, h7 0 (by decide), h7 1 (by decide),
    h7 2 (by decide)⟩

/-- Claim C8: applying the same chain preset twice in a row leaves the chain
slot in the same observable state (per-slot contents, mix mode,
super-parameter default and value, preset name, loaded-preset index) as
applying it once. -/
theorem loadEffectChainPreset_idempotent (s : EffectsManagerState)
    (pChainSlot : ChainSlotState) (pPreset : EffectChainPreset) :
    loadEffectChainPreset s (loadEffectChainPreset s pChainSlot pPreset)
        pPreset =
      loadEffectChainPreset s pChainSlot pPreset := by
  rw [loadEffectChainPreset_closed_form s
      (loadEffectChainPreset s pChainSlot pPreset) pPreset,
    loadEffectChainPreset_closed_form s pChainSlot pPreset]
  simp
